import Mathlib

/-!
Shallow embedding of the load balancer of `denizydmr07/rpc-project`
(`loadbalancer/loadbalancer.go`) and proofs about its registry,
heartbeat handling, health-monitor sweep, round-robin dispatcher and
request-retry loop.

Modelling conventions:
* the Go map `Servers map[string]*ServerInfo` is an association list
  `List (String × ServerInfo)`; `mapGet` / `mapSet` give exactly Go map
  read and write semantics;
* `time.Time` values are abstract `Nat` ticks; `time.Since(x) > timeout`
  becomes `timeout < now - x` (Nat subtraction; heartbeat timestamps never
  exceed the sweep time in any real execution, and for `lastHeartbeat > now`
  both the Go duration comparison and the Nat one say "not stale");
* a `net.Conn` is an opaque `Nat` identifier;
* decoded heartbeat JSON objects are reduced to the two fields the code
  inspects: presence of the `heartbeat` key and the optional `port` string;
* the per-connection goroutine's interaction with `lb.Mutex` is modelled
  explicitly by a `locked` flag, because the Go code locks inside the
  heartbeat branch but unlocks outside it: `heartbeatStep` reports
  Go's fatal "unlock of unlocked mutex" as `fatalUnlock` and a
  self-blocking second `Lock` as `deadlock`.
-/

namespace RpcLB

/-- `ServerInfo` (loadbalancer.go lines 26-33), minus the per-entry mutex,
which no modelled code path uses. -/
structure ServerInfo where
  heartbeatAddress : String
  servingAddress : String
  lastHeartbeat : Nat
  isHealthy : Bool
  heartBeatConn : Nat
deriving DecidableEq

/-- `LoadBalancer` (lines 35-41): the registry map, the rotation-order key
slice, the round-robin cursor and the liveness timeout. -/
structure LoadBalancer where
  servers : List (String × ServerInfo)
  serverKeys : List String
  roundRobinIndex : Nat
  timeout : Nat
deriving DecidableEq

/-- `NewLoadBalancer` (lines 44-50): empty map, empty key slice, zero cursor. -/
def NewLoadBalancer (timeout : Nat) : LoadBalancer :=
  ⟨[], [], 0, timeout⟩

/-- Go map read `m[k]`: the value paired with key `k`, if any. -/
def mapGet (k : String) : List (String × ServerInfo) → Option ServerInfo
  | [] => none
  | (k2, v) :: rest => if k = k2 then some v else mapGet k rest

/-- Go map write `m[k] = v`: replace the binding of `k` in place, or add one. -/
def mapSet (k : String) (v : ServerInfo) : List (String × ServerInfo) → List (String × ServerInfo)
  | [] => [(k, v)]
  | (k2, v2) :: rest => if k2 = k then (k, v) :: rest else (k2, v2) :: mapSet k v rest

/-- The key-removal loop of `MonitorHeartbeats` (lines 74-79):
`ServerKeys = append(ServerKeys[:i], ServerKeys[i+1:]...)` at the first
index whose key matches, then `break`. -/
def removeFirst (a : String) : List String → List String
  | [] => []
  | x :: xs => if x = a then xs else x :: removeFirst a xs

/-- `strings.Split(address, ":")[0]` (line 140): the prefix of the address
up to the first colon.  (The code's own comment says "by finding the last
colon", which differs as soon as the host part itself contains a colon.) -/
def hostPart (address : String) : String :=
  (address.toList.takeWhile (fun c => c ≠ ':')).asString

/-- The registry mutation performed inside the locked region of
`handleHeartbeat` for a message that carries the `heartbeat` key
(lines 132-165).  Returns the new state and `false` exactly when the Go
code runs `continue` (unknown sender and no `port` field), which discards
the message without registering the sender. -/
def hbRegistryUpdate (now conn : Nat) (address : String) (port : Option String)
    (lb : LoadBalancer) : LoadBalancer × Bool :=
  match mapGet address lb.servers with
  | some s =>
      let s2 := { s with lastHeartbeat := now, isHealthy := true }
      ({ lb with servers := mapSet address s2 lb.servers }, true)
  | none =>
      match port with
      | some p =>
          let s2 : ServerInfo := ⟨address, hostPart address ++ ":" ++ p, now, true, conn⟩
          ({ lb with
              servers := mapSet address s2 lb.servers,
              serverKeys := lb.serverKeys ++ [address] }, true)
      | none => (lb, false)

/-- A decoded heartbeat-connection message, reduced to the two fields the
code inspects: whether the `heartbeat` key is present (its value is never
looked at) and the `port` string, if present. -/
structure HBMessage where
  heartbeat : Bool
  port : Option String
deriving DecidableEq

/-- Result of processing one decoded message in `handleHeartbeat`'s loop
body (lines 120-169), with the mutex state made explicit. -/
inductive HBStep where
  | ok (lb : LoadBalancer) (locked : Bool)
  | fatalUnlock (lb : LoadBalancer)
  | deadlock (lb : LoadBalancer)
deriving DecidableEq

/-- One iteration of `handleHeartbeat`'s decode loop on an already-decoded
message.  `Lock()` on line 129 sits inside the heartbeat branch;
`Unlock()` on line 169 sits after it, on every path that does not
`continue`.  `Lock` while `locked` blocks the goroutine forever
(`deadlock`); `Unlock` while not `locked` is Go's fatal
"sync: unlock of unlocked mutex" (`fatalUnlock`). -/
def heartbeatStep (now conn : Nat) (address : String) (msg : HBMessage)
    (lb : LoadBalancer) (locked : Bool) : HBStep :=
  if msg.heartbeat then
    if locked then HBStep.deadlock lb
    else
      match hbRegistryUpdate now conn address msg.port lb with
      | (lb2, true) => HBStep.ok lb2 false
      | (lb2, false) => HBStep.ok lb2 true
  else
    if locked then HBStep.ok lb false
    else HBStep.fatalUnlock lb

/-- Outcome of running one heartbeat connection's goroutine over a list of
decoded messages (each paired with its arrival time). -/
inductive ConnRun where
  | finished (lb : LoadBalancer) (locked : Bool)
  | fatalUnlock (lb : LoadBalancer)
  | deadlock (lb : LoadBalancer)
deriving DecidableEq

/-- Run `handleHeartbeat`'s loop over a list of decoded messages arriving
on one connection. -/
def runConn (conn : Nat) (address : String) :
    List (Nat × HBMessage) → LoadBalancer → Bool → ConnRun
  | [], lb, locked => ConnRun.finished lb locked
  | (now, msg) :: rest, lb, locked =>
      match heartbeatStep now conn address msg lb locked with
      | HBStep.ok lb2 locked2 => runConn conn address rest lb2 locked2
      | HBStep.fatalUnlock lb2 => ConnRun.fatalUnlock lb2
      | HBStep.deadlock lb2 => ConnRun.deadlock lb2

/-- One heartbeat event as seen by the registry: arrival time, connection
id, sender address, optional `port` field. -/
structure HBEvent where
  time : Nat
  conn : Nat
  address : String
  port : Option String

/-- Registry evolution over a sequence of heartbeat events (each one a
locked `upsert` as in `handleHeartbeat`). -/
def processHeartbeats : List HBEvent → LoadBalancer → LoadBalancer
  | [], lb => lb
  | e :: rest, lb => processHeartbeats rest (hbRegistryUpdate e.time e.conn e.address e.port lb).1

/-- `time.Since(server.LastHeartbeat) > lb.Timeout` (line 63). -/
def isStale (now t : Nat) (s : ServerInfo) : Bool :=
  decide (t < now - s.lastHeartbeat)

/-- The body of one `MonitorHeartbeats` sweep (lines 60-85): visit every
map entry; a stale entry has its connection closed, is deleted from the
map and has its (unique) key removed from the rotation slice.  Deletion
uses the entry's own `HeartbeatAddress` field, which equals its map key
for every entry the code ever creates (proved as part of the registry
invariant below).  Returns (new map, new key slice, closed connections). -/
def sweepOnce (now t : Nat) :
    List (String × ServerInfo) → List String →
      List (String × ServerInfo) × List String × List Nat
  | [], keys => ([], keys, [])
  | (k, s) :: rest, keys =>
      if isStale now t s then
        let r := sweepOnce now t rest (removeFirst s.heartbeatAddress keys)
        (r.1, r.2.1, s.heartBeatConn :: r.2.2)
      else
        let r := sweepOnce now t rest keys
        ((k, s) :: r.1, r.2.1, r.2.2)

/-- One full Health-Monitor sweep at time `now`: the new state and the
list of connections that were closed. -/
def monitorSweep (now : Nat) (lb : LoadBalancer) : LoadBalancer × List Nat :=
  let r := sweepOnce now lb.timeout lb.servers lb.serverKeys
  ({ lb with servers := r.1, serverKeys := r.2.1 }, r.2.2)

/-- `getServer` (lines 283-306): nil on an empty key slice; otherwise wrap
an out-of-bounds cursor to zero, read the entry at the cursor, advance the
cursor by one. -/
def getServer (lb : LoadBalancer) : Option ServerInfo × LoadBalancer :=
  if lb.serverKeys.length = 0 then
    (none, lb)
  else
    let idx := if lb.serverKeys.length ≤ lb.roundRobinIndex then 0 else lb.roundRobinIndex
    (mapGet (lb.serverKeys.getD idx "") lb.servers, { lb with roundRobinIndex := idx + 1 })

/-- `n` consecutive `getServer` calls with no interleaved registry change;
the list of selections plus the final state. -/
def getServerN : Nat → LoadBalancer → List (Option ServerInfo) × LoadBalancer
  | 0, lb => ([], lb)
  | n + 1, lb =>
      let r := getServer lb
      let rest := getServerN n r.2
      (r.1 :: rest.1, rest.2)

/-- Result of `net.Dial` in `handleRequest` (line 226), classified the way
line 230 classifies it: success, a `*net.OpError` (connection-level
network error) or any other error. -/
inductive DialResult where
  | ok
  | opError
  | otherError
deriving DecidableEq

/-- `sendError` (lines 277-280): the JSON error envelope
`map[string]interface` containing the single binding `error ↦ message`. -/
def sendError (message : String) : List (String × String) :=
  [("error", message)]

/-- What the retry section of `handleRequest` hands back. -/
inductive RequestOutcome where
  | errorEnvelope (envelope : List (String × String))
  | connected (servingAddress : String)
deriving DecidableEq

/-- The `getServer:` retry loop of `handleRequest` (lines 217-239), with
dialing abstracted by `dial`.  `fuel` bounds the number of selection
attempts the model is allowed to observe; the Go loop itself (a `goto`)
tracks no attempt count, so `none` means the code performed `fuel`
selection attempts and was still looping. -/
def dispatchLoop (dial : String → DialResult) : Nat → LoadBalancer → Option (RequestOutcome × LoadBalancer)
  | 0, _ => none
  | fuel + 1, lb =>
      match getServer lb with
      | (none, lb2) => some (RequestOutcome.errorEnvelope (sendError "No server available"), lb2)
      | (some s, lb2) =>
          match dial s.servingAddress with
          | DialResult.ok => some (RequestOutcome.connected s.servingAddress, lb2)
          | DialResult.opError => dispatchLoop dial fuel lb2
          | DialResult.otherError =>
              some (RequestOutcome.errorEnvelope (sendError "Error in connecting to server"), lb2)

/-- The consistency invariant tying the registry map to the rotation-order
slice: no duplicate rotation keys, no duplicate map keys, the two hold
exactly the same key set, and every entry records its own map key in its
`heartbeatAddress` field. -/
def RegistryInv (lb : LoadBalancer) : Prop :=
  lb.serverKeys.Nodup ∧
  (lb.servers.map Prod.fst).Nodup ∧
  (∀ k ∈ lb.serverKeys, (mapGet k lb.servers).isSome) ∧
  (∀ k ∈ lb.servers.map Prod.fst, k ∈ lb.serverKeys) ∧
  (∀ p ∈ lb.servers, p.2.heartbeatAddress = p.1)

/-- Registry states reachable from `NewLoadBalancer` through the three
operations that touch the registry: a heartbeat upsert, a Health-Monitor
sweep, and a dispatcher selection. -/
inductive Reachable : LoadBalancer → Prop where
  | init (timeout : Nat) : Reachable (NewLoadBalancer timeout)
  | heartbeat {lb : LoadBalancer} (h : Reachable lb)
      (now conn : Nat) (address : String) (port : Option String) :
      Reachable (hbRegistryUpdate now conn address port lb).1
  | sweep {lb : LoadBalancer} (h : Reachable lb) (now : Nat) :
      Reachable (monitorSweep now lb).1
  | dispatch {lb : LoadBalancer} (h : Reachable lb) :
      Reachable (getServer lb).2

/-- A registry holding a single backend, as produced by one valid first
heartbeat from `10.0.0.1:40001` carrying port `9001`. -/
def lb1 : LoadBalancer :=
  (hbRegistryUpdate 0 0 "10.0.0.1:40001" (some "9001") (NewLoadBalancer 5)).1

/-- A dial function under which every backend is down with a
connection-level (`*net.OpError`) failure. -/
def deadDial : String → DialResult := fun _ => DialResult.opError

/-- State after registering backend `10.0.0.1:40001` and serving one
request from it: the cursor sits at 1 = length of the rotation order. -/
def lbA : LoadBalancer := (getServer lb1).2

/-- `lbA` after a second backend `10.0.0.2:40002` registers with port
`9002`. -/
def lbB : LoadBalancer := (hbRegistryUpdate 1 1 "10.0.0.2:40002" (some "9002") lbA).1

/-! ### Association-list map lemmas -/

theorem mapGet_cons_self (k : String) (v : ServerInfo) (l : List (String × ServerInfo)) :
    mapGet k ((k, v) :: l) = some v := by
  simp [mapGet]

theorem mapGet_cons_ne (k k2 : String) (v : ServerInfo) (l : List (String × ServerInfo))
    (h : k ≠ k2) : mapGet k ((k2, v) :: l) = mapGet k l := by
  simp [mapGet, h]

theorem mapGet_mapSet_self (k : String) (v : ServerInfo) (l : List (String × ServerInfo)) :
    mapGet k (mapSet k v l) = some v := by
  induction l with
  | nil => simp [mapGet, mapSet]
  | cons p rest ih =>
      obtain ⟨k2, v2⟩ := p
      by_cases h : k2 = k
      · subst h; simp [mapGet, mapSet]
      · have h2 : ¬ k = k2 := fun he => h he.symm
        simp [mapGet, mapSet, h, h2, ih]

theorem mapGet_mapSet_ne (k k2 : String) (v : ServerInfo) (l : List (String × ServerInfo))
    (h : k2 ≠ k) : mapGet k2 (mapSet k v l) = mapGet k2 l := by
  induction l with
  | nil => simp [mapGet, mapSet, h]
  | cons p rest ih =>
      obtain ⟨k3, v3⟩ := p
      by_cases h3 : k3 = k
      · subst h3; simp [mapGet, mapSet, h]
      · simp only [mapSet, if_neg h3, mapGet]
        by_cases h4 : k2 = k3 <;> simp [h4, ih]

theorem mapGet_isSome_iff (k : String) (l : List (String × ServerInfo)) :
    (mapGet k l).isSome ↔ k ∈ l.map Prod.fst := by
  induction l with
  | nil => simp [mapGet]
  | cons p rest ih =>
      obtain ⟨k2, v2⟩ := p
      by_cases h : k = k2 <;> simp [mapGet, h, ih]

theorem mapGet_eq_none (k : String) (l : List (String × ServerInfo))
    (h : k ∉ l.map Prod.fst) : mapGet k l = none := by
  have h2 : ¬ (mapGet k l).isSome := fun hs => h ((mapGet_isSome_iff k l).mp hs)
  cases hm : mapGet k l with
  | none => rfl
  | some s => exact absurd (by simp [hm]) h2

theorem mapGet_mem (k : String) (s : ServerInfo) (l : List (String × ServerInfo))
    (h : mapGet k l = some s) : (k, s) ∈ l := by
  induction l with
  | nil => simp [mapGet] at h
  | cons p rest ih =>
      obtain ⟨k2, v2⟩ := p
      by_cases h2 : k = k2
      · subst h2
        simp [mapGet] at h
        simp [h]
      · simp [mapGet, h2] at h
        simp [ih h]

theorem mapGet_of_mem (k : String) (s : ServerInfo) (l : List (String × ServerInfo))
    (hnd : (l.map Prod.fst).Nodup) (h : (k, s) ∈ l) : mapGet k l = some s := by
  induction l with
  | nil => simp at h
  | cons p rest ih =>
      obtain ⟨k2, v2⟩ := p
      simp only [List.map_cons, List.nodup_cons] at hnd
      rcases List.mem_cons.mp h with h2 | h2
      · rw [show k2 = k from congrArg Prod.fst h2.symm] at hnd ⊢
        rw [show v2 = s from congrArg Prod.snd h2.symm]
        simp [mapGet]
      · have hk : k ≠ k2 := by
          intro he
          subst he
          exact hnd.1 (List.mem_map_of_mem Prod.fst h2)
        simp [mapGet, hk, ih hnd.2 h2]

theorem mem_mapSet (k : String) (v : ServerInfo) (p : String × ServerInfo)
    (l : List (String × ServerInfo)) (h : p ∈ mapSet k v l) : p = (k, v) ∨ p ∈ l := by
  induction l with
  | nil => simp [mapSet] at h; simp [h]
  | cons q rest ih =>
      obtain ⟨k2, v2⟩ := q
      by_cases h2 : k2 = k
      · subst h2
        simp only [mapSet, if_pos rfl] at h
        rcases List.mem_cons.mp h with h3 | h3
        · exact Or.inl h3
        · exact Or.inr (List.mem_cons_of_mem _ h3)
      · simp only [mapSet, if_neg h2] at h
        rcases List.mem_cons.mp h with h3 | h3
        · exact Or.inr (h3 ▸ List.mem_cons_self _ _)
        · rcases ih h3 with h4 | h4
          · exact Or.inl h4
          · exact Or.inr (List.mem_cons_of_mem _ h4)

theorem mapSet_map_fst_mem (k : String) (v : ServerInfo) (l : List (String × ServerInfo))
    (h : k ∈ l.map Prod.fst) : (mapSet k v l).map Prod.fst = l.map Prod.fst := by
  induction l with
  | nil => simp at h
  | cons p rest ih =>
      obtain ⟨k2, v2⟩ := p
      by_cases h2 : k2 = k
      · subst h2; simp [mapSet]
      · have h3 : k ∈ rest.map Prod.fst := by
          rcases List.mem_cons.mp h with h4 | h4
          · exact absurd h4.symm h2
          · exact h4
        simp [mapSet, h2, ih h3]

theorem mapSet_map_fst_not_mem (k : String) (v : ServerInfo) (l : List (String × ServerInfo))
    (h : k ∉ l.map Prod.fst) : (mapSet k v l).map Prod.fst = l.map Prod.fst ++ [k] := by
  induction l with
  | nil => simp [mapSet]
  | cons p rest ih =>
      obtain ⟨k2, v2⟩ := p
      simp only [List.map_cons, List.mem_cons] at h
      push_neg at h
      have h2 : ¬ k2 = k := fun he => h.1 he.symm
      simp [mapSet, h2, ih h.2]

/-! ### removeFirst and sweep lemmas -/

theorem removeFirst_eq_filter (a : String) (l : List String) (hnd : l.Nodup) :
    removeFirst a l = l.filter (fun x => decide (x ≠ a)) := by
  induction l with
  | nil => simp [removeFirst]
  | cons x xs ih =>
      simp only [List.nodup_cons] at hnd
      by_cases h : x = a
      · subst h
        simp only [removeFirst]
        rw [if_pos trivial, List.filter_cons_of_neg (by simp)]
        exact (List.filter_eq_self.mpr (fun y hy => by
          simp only [decide_eq_true_eq]
          exact fun he => hnd.1 (he ▸ hy))).symm
      · simp [removeFirst, h, ih hnd.2]

theorem sweepOnce_servers (now t : Nat) (servers : List (String × ServerInfo))
    (keys : List String) :
    (sweepOnce now t servers keys).1 = servers.filter (fun p => !isStale now t p.2) := by
  induction servers generalizing keys with
  | nil => simp [sweepOnce]
  | cons p rest ih =>
      obtain ⟨k, s⟩ := p
      by_cases h : isStale now t s <;> simp [sweepOnce, h, ih]

theorem sweepOnce_conns (now t : Nat) (servers : List (String × ServerInfo))
    (keys : List String) :
    (sweepOnce now t servers keys).2.2 =
      (servers.filter (fun p => isStale now t p.2)).map (fun p => p.2.heartBeatConn) := by
  induction servers generalizing keys with
  | nil => simp [sweepOnce]
  | cons p rest ih =>
      obtain ⟨k, s⟩ := p
      by_cases h : isStale now t s <;> simp [sweepOnce, h, ih]

theorem sweepOnce_keys (now t : Nat) (servers : List (String × ServerInfo))
    (keys : List String) (hnd : keys.Nodup) :
    (sweepOnce now t servers keys).2.1 =
      keys.filter (fun k =>
        decide (k ∉ (servers.filter (fun p => isStale now t p.2)).map
          (fun p => p.2.heartbeatAddress))) := by
  induction servers generalizing keys with
  | nil => simp [sweepOnce]
  | cons p rest ih =>
      obtain ⟨k0, s⟩ := p
      by_cases h : isStale now t s
      · have hnd2 : (removeFirst s.heartbeatAddress keys).Nodup := by
          rw [removeFirst_eq_filter _ _ hnd]
          exact hnd.filter _
        have step := ih (removeFirst s.heartbeatAddress keys) hnd2
        simp only [sweepOnce, if_pos h]
        rw [step, removeFirst_eq_filter _ _ hnd, List.filter_filter]
        have hpred : (fun x => decide (x ∉ (rest.filter (fun p => isStale now t p.2)).map
              (fun p => p.2.heartbeatAddress)) && decide (x ≠ s.heartbeatAddress)) =
            (fun x => decide (x ∉ ((k0, s) :: rest |>.filter (fun p => isStale now t p.2)).map
              (fun p => p.2.heartbeatAddress))) := by
          funext x
          simp only [List.filter_cons, h, List.map_cons, List.mem_cons]
          by_cases h1 : x = s.heartbeatAddress <;>
            by_cases h2 : x ∈ (rest.filter (fun p => isStale now t p.2)).map
              (fun p => p.2.heartbeatAddress) <;> simp [h1, h2]
        rw [hpred]
      · have step := ih keys hnd
        simp only [sweepOnce, if_neg h]
        rw [step]
        have hpred : (fun k => decide (k ∉ (rest.filter (fun p => isStale now t p.2)).map
              (fun p => p.2.heartbeatAddress))) =
            (fun k => decide (k ∉ ((k0, s) :: rest |>.filter (fun p => isStale now t p.2)).map
              (fun p => p.2.heartbeatAddress))) := by
          funext x
          simp [List.filter_cons, h]
        rw [hpred]

theorem mapGet_filter (q : ServerInfo → Bool) (k : String) (s : ServerInfo)
    (l : List (String × ServerInfo)) (hnd : (l.map Prod.fst).Nodup) :
    mapGet k (l.filter (fun p => q p.2)) = some s ↔ (mapGet k l = some s ∧ q s = true) := by
  induction l with
  | nil => simp [mapGet]
  | cons p rest ih =>
      obtain ⟨k2, v2⟩ := p
      simp only [List.map_cons, List.nodup_cons] at hnd
      by_cases hq : q v2 = true
      · rw [List.filter_cons_of_pos (by simpa using hq)]
        by_cases hk : k = k2
        · subst hk
          rw [mapGet_cons_self, mapGet_cons_self]
          constructor
          · intro h
            exact ⟨h, (Option.some.inj h) ▸ hq⟩
          · exact fun h => h.1
        · rw [mapGet_cons_ne _ _ _ _ hk, mapGet_cons_ne _ _ _ _ hk]
          exact ih hnd.2
      · rw [List.filter_cons_of_neg (by simpa using hq)]
        by_cases hk : k = k2
        · subst hk
          have hnone : mapGet k (rest.filter (fun p => q p.2)) = none := by
            apply mapGet_eq_none
            intro hmem
            exact hnd.1 (((List.filter_sublist rest).map Prod.fst).mem hmem)
          rw [hnone, mapGet_cons_self]
          constructor
          · intro h; cases h
          · rintro ⟨h1, h2⟩
            rw [Option.some.inj h1] at hq
            exact absurd h2 hq
        · rw [mapGet_cons_ne _ _ _ _ hk]
          exact ih hnd.2

theorem mem_staleMap (now t : Nat) (k : String) (l : List (String × ServerInfo))
    (hnd : (l.map Prod.fst).Nodup) (halign : ∀ p ∈ l, p.2.heartbeatAddress = p.1) :
    (k ∈ (l.filter (fun p => isStale now t p.2)).map (fun p => p.2.heartbeatAddress)) ↔
      (∃ s, mapGet k l = some s ∧ isStale now t s = true) := by
  constructor
  · intro h
    rcases List.mem_map.mp h with ⟨p, hp, he⟩
    rcases List.mem_filter.mp hp with ⟨hpl, hps⟩
    refine ⟨p.2, ?_, hps⟩
    have : p.1 = k := (halign p hpl) ▸ he
    rw [← this]
    exact mapGet_of_mem p.1 p.2 l hnd (by rw [show (p.1, p.2) = p from rfl]; exact hpl)
  · intro ⟨s, hs, hstale⟩
    have hmem : (k, s) ∈ l := mapGet_mem k s l hs
    apply List.mem_map.mpr
    refine ⟨(k, s), List.mem_filter.mpr ⟨hmem, hstale⟩, halign (k, s) hmem⟩

/-! ### getServer lemmas -/

theorem getServer_of_empty (lb : LoadBalancer) (h : lb.serverKeys = []) :
    getServer lb = (none, lb) := by
  simp [getServer, h]

theorem getServer_of_nonempty (lb : LoadBalancer) (h : lb.serverKeys ≠ []) :
    getServer lb =
      (mapGet (lb.serverKeys.getD
          (if lb.serverKeys.length ≤ lb.roundRobinIndex then 0 else lb.roundRobinIndex) "")
          lb.servers,
       { lb with roundRobinIndex :=
          (if lb.serverKeys.length ≤ lb.roundRobinIndex then 0 else lb.roundRobinIndex) + 1 }) := by
  have h2 : ¬ lb.serverKeys.length = 0 := fun he => h (List.length_eq_zero.mp he)
  simp [getServer, h2]

theorem getServer_state (lb : LoadBalancer) :
    (getServer lb).2.servers = lb.servers ∧ (getServer lb).2.serverKeys = lb.serverKeys ∧
      (getServer lb).2.timeout = lb.timeout := by
  by_cases h : lb.serverKeys.length = 0 <;> simp [getServer, h]

theorem getD_mem (l : List String) (i : Nat) (h : i < l.length) : l.getD i "" ∈ l := by
  rw [List.getD_eq_getElem _ _ h]
  exact l.getElem_mem h

theorem cursor_norm (len c : Nat) (hc : c ≤ len) :
    (if len ≤ c then 0 else c) = c % len := by
  rcases Nat.lt_or_ge c len with h | h
  · rw [if_neg (Nat.not_le.mpr h), Nat.mod_eq_of_lt h]
  · have he : c = len := Nat.le_antisymm hc h
    rw [if_pos h, he, Nat.mod_self]

theorem getServerN_trace (servers : List (String × ServerInfo)) (keys : List String) (t : Nat)
    (hne : keys ≠ []) :
    ∀ (n c : Nat), c ≤ keys.length →
      (getServerN n ⟨servers, keys, c, t⟩).1 =
        (List.range n).map (fun i => mapGet (keys.getD ((c + i) % keys.length) "") servers) := by
  intro n
  induction n with
  | zero => intro c hc; simp [getServerN]
  | succ m ih =>
      intro c hc
      have hlen : keys.length ≠ 0 := fun he => hne (List.length_eq_zero.mp he)
      have hpos : 0 < keys.length := Nat.pos_of_ne_zero hlen
      have hmod : c % keys.length < keys.length := Nat.mod_lt _ hpos
      have hgs : getServer ⟨servers, keys, c, t⟩ =
          (mapGet (keys.getD (c % keys.length) "") servers,
           ⟨servers, keys, c % keys.length + 1, t⟩) := by
        rw [getServer_of_nonempty _ hne]
        simp only
        rw [cursor_norm _ _ hc]
      simp only [getServerN, hgs]
      rw [ih (c % keys.length + 1) hmod]
      rw [List.range_succ_eq_map, List.map_cons, List.map_map]
      congr 1
      apply List.map_congr_left
      intro i _
      have hidx : (c % keys.length + 1 + i) % keys.length =
          (c + Nat.succ i) % keys.length := by
        rw [Nat.add_assoc, Nat.mod_add_mod, Nat.add_comm 1 i]
      simp only [Function.comp_def]
      rw [hidx]

theorem getServerN_trace_any (servers : List (String × ServerInfo)) (keys : List String)
    (t : Nat) (hne : keys ≠ []) (n c : Nat) :
    (getServerN n ⟨servers, keys, c, t⟩).1 =
      (List.range n).map (fun i =>
        mapGet (keys.getD (((if keys.length ≤ c then 0 else c) + i) % keys.length) "")
          servers) := by
  have hlen : keys.length ≠ 0 := fun he => hne (List.length_eq_zero.mp he)
  have hc2lt : (if keys.length ≤ c then 0 else c) < keys.length := by
    rcases Nat.lt_or_ge c keys.length with h | h
    · rw [if_neg (Nat.not_le.mpr h)]; exact h
    · rw [if_pos h]; exact Nat.pos_of_ne_zero hlen
  cases n with
  | zero => simp [getServerN]
  | succ m =>
      have hgs : getServer ⟨servers, keys, c, t⟩ =
          getServer ⟨servers, keys, (if keys.length ≤ c then 0 else c), t⟩ := by
        rw [getServer_of_nonempty _ hne, getServer_of_nonempty _ hne]
        simp only
        rw [if_neg (Nat.not_le.mpr hc2lt)]
      simp only [getServerN, hgs]
      have := getServerN_trace servers keys t hne (m + 1)
        (if keys.length ≤ c then 0 else c) (Nat.le_of_lt hc2lt)
      simp only [getServerN] at this
      exact this

/-! ### dispatch-loop lemmas -/

theorem dispatchLoop_allDead (dial : String → DialResult) (servers : List (String × ServerInfo))
    (keys : List String) (t : Nat) (hne : keys ≠ [])
    (hcov : ∀ k ∈ keys, (mapGet k servers).isSome)
    (hdead : ∀ p ∈ servers, dial p.2.servingAddress = DialResult.opError) :
    ∀ (fuel c : Nat), dispatchLoop dial fuel ⟨servers, keys, c, t⟩ = none := by
  intro fuel
  induction fuel with
  | zero => intro c; rfl
  | succ m ih =>
      intro c
      have hlen : keys.length ≠ 0 := fun he => hne (List.length_eq_zero.mp he)
      have hc2lt : (if keys.length ≤ c then 0 else c) < keys.length := by
        rcases Nat.lt_or_ge c keys.length with h | h
        · rw [if_neg (Nat.not_le.mpr h)]; exact h
        · rw [if_pos h]; exact Nat.pos_of_ne_zero hlen
      have hkmem : keys.getD (if keys.length ≤ c then 0 else c) "" ∈ keys :=
        getD_mem keys _ hc2lt
      have hsome : (mapGet (keys.getD (if keys.length ≤ c then 0 else c) "") servers).isSome :=
        hcov _ hkmem
      rcases Option.isSome_iff_exists.mp hsome with ⟨s, hs⟩
      have hmem : (keys.getD (if keys.length ≤ c then 0 else c) "", s) ∈ servers :=
        mapGet_mem _ _ _ hs
      have hdial : dial s.servingAddress = DialResult.opError := hdead _ hmem
      have hgs : getServer ⟨servers, keys, c, t⟩ =
          (some s, ⟨servers, keys, (if keys.length ≤ c then 0 else c) + 1, t⟩) := by
        rw [getServer_of_nonempty _ hne]
        simp only
        rw [hs]
      simp only [dispatchLoop, hgs, hdial]
      exact ih _

/-! ### Health-Monitor sweep lemmas -/

theorem registryInv_mem_iff (lb : LoadBalancer) (hinv : RegistryInv lb) (k : String) :
    k ∈ lb.serverKeys ↔ (mapGet k lb.servers).isSome := by
  constructor
  · intro h
    exact hinv.2.2.1 k h
  · intro h
    exact hinv.2.2.2.1 k ((mapGet_isSome_iff k lb.servers).mp h)

theorem monitorSweep_servers (now : Nat) (lb : LoadBalancer) :
    (monitorSweep now lb).1.servers =
      lb.servers.filter (fun p => !isStale now lb.timeout p.2) := by
  simp [monitorSweep, sweepOnce_servers]

theorem monitorSweep_keys (now : Nat) (lb : LoadBalancer) (hnd : lb.serverKeys.Nodup) :
    (monitorSweep now lb).1.serverKeys =
      lb.serverKeys.filter (fun k =>
        decide (k ∉ (lb.servers.filter (fun p => isStale now lb.timeout p.2)).map
          (fun p => p.2.heartbeatAddress))) := by
  simp [monitorSweep, sweepOnce_keys _ _ _ _ hnd]

theorem monitorSweep_conns (now : Nat) (lb : LoadBalancer) :
    (monitorSweep now lb).2 =
      (lb.servers.filter (fun p => isStale now lb.timeout p.2)).map
        (fun p => p.2.heartBeatConn) := by
  simp [monitorSweep, sweepOnce_conns]

theorem monitorSweep_frame (now : Nat) (lb : LoadBalancer) :
    (monitorSweep now lb).1.roundRobinIndex = lb.roundRobinIndex ∧
      (monitorSweep now lb).1.timeout = lb.timeout := by
  simp [monitorSweep]

/-! ### Preservation of the registry invariant -/

theorem registryInv_init (t : Nat) : RegistryInv (NewLoadBalancer t) := by
  refine ⟨List.nodup_nil, List.nodup_nil, ?_, ?_, ?_⟩ <;> simp [NewLoadBalancer]

theorem registryInv_heartbeat (lb : LoadBalancer) (hinv : RegistryInv lb)
    (now conn : Nat) (address : String) (port : Option String) :
    RegistryInv (hbRegistryUpdate now conn address port lb).1 := by
  obtain ⟨hndk, hndm, hcov, hbk, halign⟩ := hinv
  cases hm : mapGet address lb.servers with
  | some s =>
      have hmem : address ∈ lb.servers.map Prod.fst :=
        (mapGet_isSome_iff address lb.servers).mp (by simp [hm])
      have hfst : (mapSet address { s with lastHeartbeat := now, isHealthy := true }
          lb.servers).map Prod.fst = lb.servers.map Prod.fst :=
        mapSet_map_fst_mem _ _ _ hmem
      simp only [hbRegistryUpdate, hm, RegistryInv]
      refine ⟨hndk, by rw [hfst]; exact hndm, ?_, ?_, ?_⟩
      · intro k hk
        rw [mapGet_isSome_iff, hfst, ← mapGet_isSome_iff]
        exact hcov k hk
      · intro k hk
        rw [hfst] at hk
        exact hbk k hk
      · intro p hp
        rcases mem_mapSet _ _ _ _ hp with h2 | h2
        · subst h2
          exact halign (address, s) (mapGet_mem _ _ _ hm)
        · exact halign p h2
  | none =>
      cases port with
      | none => simpa [hbRegistryUpdate, hm] using ⟨hndk, hndm, hcov, hbk, halign⟩
      | some p =>
          have hnmem : address ∉ lb.servers.map Prod.fst := by
            intro h
            rw [← mapGet_isSome_iff, hm] at h
            cases h
          have hnk : address ∉ lb.serverKeys := by
            intro h
            have := hcov address h
            rw [hm] at this
            cases this
          have hfst : (mapSet address
              ⟨address, hostPart address ++ ":" ++ p, now, true, conn⟩ lb.servers).map Prod.fst =
              lb.servers.map Prod.fst ++ [address] :=
            mapSet_map_fst_not_mem _ _ _ hnmem
          simp only [hbRegistryUpdate, hm, RegistryInv]
          refine ⟨?_, ?_, ?_, ?_, ?_⟩
          · simp only [List.nodup_append, List.nodup_cons, List.nodup_nil]
            exact ⟨hndk, ⟨by simp, trivial⟩, by simp [List.disjoint_singleton, hnk]⟩
          · rw [hfst]
            simp only [List.nodup_append, List.nodup_cons, List.nodup_nil]
            exact ⟨hndm, ⟨by simp, trivial⟩, by simp [List.disjoint_singleton, hnmem]⟩
          · intro k hk
            by_cases hka : k = address
            · subst hka
              simp [mapGet_mapSet_self]
            · rw [mapGet_mapSet_ne _ _ _ _ hka]
              rcases List.mem_append.mp hk with h2 | h2
              · exact hcov k h2
              · simp at h2
                exact absurd h2 hka
          · intro k hk
            rw [hfst] at hk
            rcases List.mem_append.mp hk with h2 | h2
            · exact List.mem_append_left _ (hbk k h2)
            · exact List.mem_append_right _ h2
          · intro q hq
            rcases mem_mapSet _ _ _ _ hq with h2 | h2
            · subst h2; rfl
            · exact halign q h2

theorem registryInv_sweep (lb : LoadBalancer) (hinv : RegistryInv lb) (now : Nat) :
    RegistryInv (monitorSweep now lb).1 := by
  obtain ⟨hndk, hndm, hcov, hbk, halign⟩ := hinv
  have hks := monitorSweep_keys now lb hndk
  have hsv := monitorSweep_servers now lb
  have hmemiff : ∀ k, k ∈ lb.serverKeys ↔ (mapGet k lb.servers).isSome :=
    registryInv_mem_iff lb ⟨hndk, hndm, hcov, hbk, halign⟩
  refine ⟨?_, ?_, ?_, ?_, ?_⟩
  · rw [hks]; exact hndk.filter _
  · rw [hsv]
    exact ((List.filter_sublist lb.servers).map Prod.fst).nodup hndm
  · intro k hk
    rw [hks] at hk
    rcases List.mem_filter.mp hk with ⟨hk1, hk2⟩
    rw [decide_eq_true_eq] at hk2
    rcases Option.isSome_iff_exists.mp ((hmemiff k).mp hk1) with ⟨s, hs⟩
    have hfresh : isStale now lb.timeout s = false := by
      by_contra h
      rw [Bool.not_eq_false] at h
      exact hk2 ((mem_staleMap now lb.timeout k lb.servers hndm halign).mpr ⟨s, hs, h⟩)
    rw [hsv]
    apply Option.isSome_iff_exists.mpr
    refine ⟨s, ?_⟩
    exact (mapGet_filter (fun s => !isStale now lb.timeout s) k s lb.servers hndm).mpr
      ⟨hs, by rw [hfresh]; rfl⟩
  · intro k hk
    rw [hsv] at hk
    rw [← mapGet_isSome_iff] at hk
    rcases Option.isSome_iff_exists.mp hk with ⟨s, hs⟩
    rcases (mapGet_filter (fun s => !isStale now lb.timeout s) k s lb.servers hndm).mp hs
      with ⟨hget, hfresh⟩
    rw [hks]
    apply List.mem_filter.mpr
    refine ⟨(hmemiff k).mpr (by simp [hget]), ?_⟩
    rw [decide_eq_true_eq]
    intro hmem
    rcases (mem_staleMap now lb.timeout k lb.servers hndm halign).mp hmem with ⟨s2, hs2, hstale⟩
    rw [hget] at hs2
    rw [Option.some.inj hs2] at hfresh
    rw [hstale] at hfresh
    cases hfresh
  · intro p hp
    rw [hsv] at hp
    exact halign p (List.mem_filter.mp hp).1

theorem registryInv_dispatch (lb : LoadBalancer) (hinv : RegistryInv lb) :
    RegistryInv (getServer lb).2 := by
  obtain ⟨h1, h2, h3⟩ := getServer_state lb
  unfold RegistryInv
  rw [h1, h2]
  exact hinv

theorem countP_eq_one_of_nodup (l : List (Option ServerInfo)) (a : Option ServerInfo)
    (hnd : l.Nodup) (ha : a ∈ l) : l.countP (fun x => decide (x = a)) = 1 := by
  induction l with
  | nil => cases ha
  | cons x xs ih =>
      rw [List.nodup_cons] at hnd
      rcases List.mem_cons.mp ha with h | h
      · rw [List.countP_cons_of_pos _ _ (by rw [decide_eq_true_eq]; exact h.symm)]
        have hz : xs.countP (fun y => decide (y = a)) = 0 := by
          rw [List.countP_eq_zero]
          intro y hy
          rw [decide_eq_true_eq]
          intro he
          exact hnd.1 (h ▸ he ▸ hy)
        rw [hz]
      · rw [List.countP_cons_of_neg _ _ (by
          rw [decide_eq_true_eq]
          intro he
          exact hnd.1 (he ▸ h))]
        exact ih hnd.2 h

/-! ### Claim theorems -/

/-- C2: a message on a heartbeat connection that decodes successfully but
lacks the `heartbeat` field does NOT stay local to the connection.
`handleHeartbeat` logs it and then runs `lb.Mutex.Unlock()` (line 169,
outside the heartbeat branch) without the matching `Lock()` (line 129,
inside the branch): Go's fatal "sync: unlock of unlocked mutex", which
kills the entire process.  The registry is unchanged at that point, as the
state carried by the `fatalUnlock` outcome shows, but the connection is
not merely logged-and-continued as the claim states. -/
theorem missing_heartbeat_field_fatal :
    runConn 0 "10.0.0.1:4242" [(0, ⟨false, some "9001"⟩)] (NewLoadBalancer 5) false =
      ConnRun.fatalUnlock (NewLoadBalancer 5) := by
  rfl

/-- C3: a first heartbeat that carries the `heartbeat` field but no `port`
is indeed discarded without registering the sender, but the `continue` on
line 148 skips the `Unlock()` on line 169, so the goroutine still holds
`lb.Mutex` when the next heartbeat message reaches `Lock()` (line 129) and
blocks forever: a later valid first heartbeat can never register the
sender, and the whole registry stays locked.  The registry is unchanged
(the `deadlock` outcome carries the initial state). -/
theorem portless_first_heartbeat_deadlock :
    runConn 0 "10.0.0.1:4242" [(0, ⟨true, none⟩), (1, ⟨true, some "9001"⟩)]
        (NewLoadBalancer 5) false =
      ConnRun.deadlock (NewLoadBalancer 5) := by
  rfl

/-- C7: evaluation at the failing input.  For a heartbeat connection whose
peer address is the IPv6 form `[::1]:40000` with first-message port
`9001`, the code computes `servingAddress` from
`strings.Split(address, ":")[0]` — the prefix before the FIRST colon,
namely `"["` — although the spec derives it from the peer host and the
code's own comment says "by finding the last colon" (host `[::1]`).  The
stored entry is `[:9001`, not `[::1]:9001`. -/
theorem servingAddress_first_colon_truncation :
    hostPart "[::1]:40000" = "[" ∧
    mapGet "[::1]:40000"
        (processHeartbeats [⟨0, 0, "[::1]:40000", some "9001"⟩] (NewLoadBalancer 5)).servers =
      some ⟨"[::1]:40000", "[:9001", 0, true, 0⟩ := by
  exact ⟨rfl, rfl⟩

/-- C8 counterexample: on an empty registry the handler does answer with a
single-binding error envelope before closing, but its message is
`"No server available"` (capital N, from `sendError` at line 221), which
is not the claimed `{"error": "no server available"}`. -/
theorem no_server_available_capitalized :
    dispatchLoop deadDial 1 (NewLoadBalancer 5) =
      some (RequestOutcome.errorEnvelope [("error", "No server available")],
        NewLoadBalancer 5) ∧
    ([("error", "No server available")] : List (String × String)) ≠
      [("error", "no server available")] := by
  exact ⟨rfl, by decide⟩

/-- C8 amended: whenever the registry holds zero entries, `getServer`
returns nil and leaves the state unchanged, and the request handler
answers with exactly the JSON error envelope with the single binding
`error` to `"No server available"` (capital N) before the client
connection is closed. -/
theorem empty_registry_error_envelope (lb : LoadBalancer) (dial : String → DialResult)
    (fuel : Nat) ( hservers : lb.servers = []) (hkeys : lb.serverKeys = []) :
    getServer lb = (none, lb) ∧
    dispatchLoop dial (fuel + 1) lb =
      some (RequestOutcome.errorEnvelope [("error", "No server available")], lb) := by
  have hempty : lb.servers = [] := hservers
  have hgs := getServer_of_empty lb hkeys
  refine ⟨hgs, ?_⟩
  simp only [dispatchLoop, hgs, sendError]

/-- Witness for C8 amended at the empty registry produced by
`NewLoadBalancer`. -/
theorem empty_registry_error_envelope_witness :
    getServer (NewLoadBalancer 7) = (none, NewLoadBalancer 7) ∧
    dispatchLoop deadDial 1 (NewLoadBalancer 7) =
      some (RequestOutcome.errorEnvelope [("error", "No server available")],
        NewLoadBalancer 7) :=
  empty_registry_error_envelope (NewLoadBalancer 7) deadDial 0 rfl rfl

/-- C9: if the rotation cursor is at or past the current rotation-sequence
length and the sequence is non-empty, `getServer` wraps the cursor to 0,
returns the entry at index 0 (which exists whenever the rotation keys are
covered by the map), and leaves the cursor at 1; the bounds check on
line 293 makes the access total, so no out-of-bounds error can occur. -/
theorem getServer_wraps_to_zero (lb : LoadBalancer)
    (hne : lb.serverKeys ≠ [])
    (hidx : lb.serverKeys.length ≤ lb.roundRobinIndex)
    (hcov : ∀ k ∈ lb.serverKeys, (mapGet k lb.servers).isSome) :
    getServer lb = (mapGet (lb.serverKeys.getD 0 "") lb.servers,
      { lb with roundRobinIndex := 1 }) ∧
    (mapGet (lb.serverKeys.getD 0 "") lb.servers).isSome := by
  have h := getServer_of_nonempty lb hne
  rw [if_pos hidx] at h
  refine ⟨by rw [h], ?_⟩
  exact hcov _ (getD_mem _ 0 (List.length_pos.mpr hne))

/-- Witness for C9: one backend, cursor already advanced to 1 = length. -/
theorem getServer_wraps_to_zero_witness :
    getServer lbA = (mapGet (lbA.serverKeys.getD 0 "") lbA.servers,
      { lbA with roundRobinIndex := 1 }) ∧
    (mapGet (lbA.serverKeys.getD 0 "") lbA.servers).isSome :=
  getServer_wraps_to_zero lbA (by decide) (by decide) (by decide)

/-- C1 counterexample: a registry with exactly one registered backend whose
dials always fail with a connection-level `*net.OpError`.  The claim says
the retry loop stops after at most `len(registry) = 1` selection attempts
and returns an error envelope; but after 2 selection attempts the
`goto getServer` loop (line 234) is still running and has produced
nothing — the code tracks no attempt count. -/
theorem retry_loop_exceeds_registry_bound :
    dispatchLoop deadDial 2 lb1 = none ∧ lb1.serverKeys.length = 1 := by
  exact ⟨rfl, rfl⟩

/-- C1 amended: the retry loop of `handleRequest` returns the error
envelope (message `"No server available"`) as soon as a selection finds
the registry empty; but against a non-empty registry whose backends all
fail to dial with connection-level network errors, it performs unboundedly
many selection attempts and never terminates on its own — `none` for every
attempt budget `fuel`.  Termination against a fully-dead pool relies on
the Health Monitor eventually emptying the registry, not on any attempt
bound in the handler. -/
theorem dispatchLoop_empty_or_unbounded (lb : LoadBalancer) (dial : String → DialResult)
    (fuel : Nat)
    (hcov : ∀ k ∈ lb.serverKeys, (mapGet k lb.servers).isSome)
    (hdead : ∀ p ∈ lb.servers, dial p.2.servingAddress = DialResult.opError) :
    (lb.serverKeys = [] →
      dispatchLoop dial (fuel + 1) lb =
        some (RequestOutcome.errorEnvelope (sendError "No server available"), lb)) ∧
    (lb.serverKeys ≠ [] → dispatchLoop dial fuel lb = none) := by
  constructor
  · intro hk
    have hgs := getServer_of_empty lb hk
    simp only [dispatchLoop, hgs]
  · intro hne
    obtain ⟨servers, keys, c, t⟩ := lb
    exact dispatchLoop_allDead dial servers keys t hne hcov hdead fuel c

/-- Witness for C1 amended: the single-dead-backend registry, attempt
budget 3. -/
theorem dispatchLoop_empty_or_unbounded_witness :
    (lb1.serverKeys = [] →
      dispatchLoop deadDial 4 lb1 =
        some (RequestOutcome.errorEnvelope (sendError "No server available"), lb1)) ∧
    (lb1.serverKeys ≠ [] → dispatchLoop deadDial 3 lb1 = none) :=
  dispatchLoop_empty_or_unbounded lb1 deadDial 3 (by decide) (by decide)

/-- C6: every registry state reachable from `NewLoadBalancer` through
heartbeat upserts, Health-Monitor sweeps and dispatcher selections
satisfies the correspondence invariant: the rotation-order list and the
registry map are duplicate-free and hold exactly the same keys, and each
entry records its own key, so each rotation key corresponds to exactly one
map entry. -/
theorem reachable_registry_inv (lb : LoadBalancer) (h : Reachable lb) : RegistryInv lb := by
  induction h with
  | init t => exact registryInv_init t
  | heartbeat h now conn address port ih =>
      exact registryInv_heartbeat _ ih now conn address port
  | sweep h now ih => exact registryInv_sweep _ ih now
  | dispatch h ih => exact registryInv_dispatch _ ih

/-- Witness for C6: the invariant at the reachable one-backend state
reached by a single valid first heartbeat. -/
theorem reachable_registry_inv_witness : RegistryInv lb1 :=
  reachable_registry_inv lb1
    (Reachable.heartbeat (Reachable.init 5) 0 0 "10.0.0.1:40001" (some "9001"))

/-- C10 counterexample: in the reachable state `lbA` (one backend
registered, one request served, so the cursor sits at 1 = rotation
length), the next `getServer` call would wrap and return the
already-registered backend `10.0.0.1:40001`; after a new backend
`10.0.0.2:40002` registers, the same call returns the newly appended
backend instead — the cursor was untouched, but the selection changed. -/
theorem register_changes_next_selection :
    (getServer lbA).1 = mapGet "10.0.0.1:40001" lbA.servers ∧
    (getServer lbB).1 = mapGet "10.0.0.2:40002" lbB.servers ∧
    (getServer lbB).1 ≠ (getServer lbA).1 ∧
    lbB.roundRobinIndex = lbA.roundRobinIndex := by
  decide

/-- C10 amended: registering a previously-unseen heartbeat address with a
port appends its key at the tail of the rotation order and changes neither
the rotation cursor nor any existing entry.  The next `getServer`
selection is unchanged whenever the cursor is strictly inside the old
rotation order, and also when it exceeds the old length by more than zero
positions past a full cycle (both calls wrap to index 0); but when the
cursor sits exactly at the old length — the position reached after a full
rotation — the next call returns the newly appended backend instead of
wrapping back to the first one. -/
theorem register_append_frame (lb : LoadBalancer) (now conn : Nat) (address p : String)
    (hnew : mapGet address lb.servers = none)
    (hcov : ∀ k ∈ lb.serverKeys, (mapGet k lb.servers).isSome) :
    (hbRegistryUpdate now conn address (some p) lb).1.serverKeys =
        lb.serverKeys ++ [address] ∧
    (hbRegistryUpdate now conn address (some p) lb).1.roundRobinIndex =
        lb.roundRobinIndex ∧
    (∀ k, k ≠ address →
      mapGet k (hbRegistryUpdate now conn address (some p) lb).1.servers =
        mapGet k lb.servers) ∧
    (lb.roundRobinIndex < lb.serverKeys.length →
      (getServer (hbRegistryUpdate now conn address (some p) lb).1).1 = (getServer lb).1) ∧
    (lb.roundRobinIndex = lb.serverKeys.length →
      (getServer (hbRegistryUpdate now conn address (some p) lb).1).1 =
        mapGet address (hbRegistryUpdate now conn address (some p) lb).1.servers) ∧
    (lb.serverKeys ≠ [] → lb.serverKeys.length + 1 ≤ lb.roundRobinIndex →
      (getServer (hbRegistryUpdate now conn address (some p) lb).1).1 = (getServer lb).1) := by
  have hupd : (hbRegistryUpdate now conn address (some p) lb).1 =
      { lb with
          servers := mapSet address
            ⟨address, hostPart address ++ ":" ++ p, now, true, conn⟩ lb.servers,
          serverKeys := lb.serverKeys ++ [address] } := by
    simp [hbRegistryUpdate, hnew]
  have hkne : ∀ i, i < lb.serverKeys.length → lb.serverKeys.getD i "" ≠ address := by
    intro i hi he
    have hmem := getD_mem _ i hi
    rw [he] at hmem
    have hsome := hcov address hmem
    rw [hnew] at hsome
    cases hsome
  have hne2 : lb.serverKeys ++ [address] ≠ [] := by simp
  have hlen2 : (lb.serverKeys ++ [address]).length = lb.serverKeys.length + 1 := by simp
  refine ⟨by rw [hupd], by rw [hupd], ?_, ?_, ?_, ?_⟩
  · intro k hk
    rw [hupd]
    exact mapGet_mapSet_ne _ _ _ _ hk
  · intro hlt
    have hne : lb.serverKeys ≠ [] := by
      intro h
      rw [h] at hlt
      simp at hlt
    rw [hupd, getServer_of_nonempty _ hne2, getServer_of_nonempty _ hne]
    simp only [hlen2]
    rw [if_neg (Nat.not_le.mpr hlt),
      if_neg (Nat.not_le.mpr (Nat.lt_succ_of_lt hlt))]
    rw [List.getD_append _ _ _ _ hlt]
    exact mapGet_mapSet_ne _ _ _ _ (hkne _ hlt)
  · intro heq
    rw [hupd, getServer_of_nonempty _ hne2]
    simp only [hlen2]
    have hlt : lb.roundRobinIndex < lb.serverKeys.length + 1 := by
      rw [heq]
      exact Nat.lt_succ_self _
    rw [if_neg (Nat.not_le.mpr hlt)]
    rw [heq, List.getD_append_right _ _ _ _ (Nat.le_refl _), Nat.sub_self]
    rfl
  · intro hne hge
    rw [hupd, getServer_of_nonempty _ hne2, getServer_of_nonempty _ hne]
    simp only [hlen2]
    rw [if_pos hge, if_pos (Nat.le_of_succ_le hge)]
    have h0 : 0 < lb.serverKeys.length := List.length_pos.mpr hne
    rw [List.getD_append _ _ _ _ h0]
    exact mapGet_mapSet_ne _ _ _ _ (hkne _ h0)

/-- Witness for C10 amended: registering `10.0.0.2:40002` into the
one-backend state `lbA`. -/
theorem register_append_frame_witness :
    (hbRegistryUpdate 1 1 "10.0.0.2:40002" (some "9002") lbA).1.serverKeys =
        lbA.serverKeys ++ ["10.0.0.2:40002"] ∧
    (hbRegistryUpdate 1 1 "10.0.0.2:40002" (some "9002") lbA).1.roundRobinIndex =
        lbA.roundRobinIndex ∧
    (∀ k, k ≠ "10.0.0.2:40002" →
      mapGet k (hbRegistryUpdate 1 1 "10.0.0.2:40002" (some "9002") lbA).1.servers =
        mapGet k lbA.servers) ∧
    (lbA.roundRobinIndex < lbA.serverKeys.length →
      (getServer (hbRegistryUpdate 1 1 "10.0.0.2:40002" (some "9002") lbA).1).1 =
        (getServer lbA).1) ∧
    (lbA.roundRobinIndex = lbA.serverKeys.length →
      (getServer (hbRegistryUpdate 1 1 "10.0.0.2:40002" (some "9002") lbA).1).1 =
        mapGet "10.0.0.2:40002"
          (hbRegistryUpdate 1 1 "10.0.0.2:40002" (some "9002") lbA).1.servers) ∧
    (lbA.serverKeys ≠ [] → lbA.serverKeys.length + 1 ≤ lbA.roundRobinIndex →
      (getServer (hbRegistryUpdate 1 1 "10.0.0.2:40002" (some "9002") lbA).1).1 =
        (getServer lbA).1) :=
  register_append_frame lbA 1 1 "10.0.0.2:40002" "9002" (by decide) (by decide)

/-- A two-backend registry for exercising the sweep: the first entry's
last heartbeat is at tick 0, the second one's at tick 10, timeout 5. -/
def lbMix : LoadBalancer :=
  ⟨[("10.0.0.1:40001", ⟨"10.0.0.1:40001", "10.0.0.1:9001", 0, true, 0⟩),
    ("10.0.0.3:40003", ⟨"10.0.0.3:40003", "10.0.0.3:9003", 10, true, 2⟩)],
   ["10.0.0.1:40001", "10.0.0.3:40003"], 0, 5⟩

/-- C5: in a Health-Monitor sweep at time `now` over a consistent registry,
an entry survives in the map if and only if it was present and the time
elapsed since its last heartbeat does not exceed the timeout (so it is
evicted iff the elapsed time exceeds the timeout); the rotation-order
keys after the sweep are exactly the keys of the surviving entries; the
new rotation order is a sublist of the old one (relative order of the
remaining keys is preserved); and the closed connections are exactly the
heartbeat connections of the stale entries. -/
theorem monitorSweep_spec (lb : LoadBalancer) (now : Nat) (hinv : RegistryInv lb) :
    (∀ k s, mapGet k (monitorSweep now lb).1.servers = some s ↔
        (mapGet k lb.servers = some s ∧ now - s.lastHeartbeat ≤ lb.timeout)) ∧
    (∀ k, k ∈ (monitorSweep now lb).1.serverKeys ↔
        (∃ s, mapGet k lb.servers = some s ∧ now - s.lastHeartbeat ≤ lb.timeout)) ∧
    (monitorSweep now lb).1.serverKeys.Sublist lb.serverKeys ∧
    (monitorSweep now lb).2 =
      (lb.servers.filter (fun q => isStale now lb.timeout q.2)).map
        (fun q => q.2.heartBeatConn) := by
  obtain ⟨hndk, hndm, hcov, hbk, halign⟩ := hinv
  have hks := monitorSweep_keys now lb hndk
  have hsv := monitorSweep_servers now lb
  have hfreshiff : ∀ s : ServerInfo,
      ((!isStale now lb.timeout s) = true) ↔ now - s.lastHeartbeat ≤ lb.timeout := by
    intro s
    simp [isStale, Nat.not_lt]
  refine ⟨?_, ?_, ?_, ?_⟩
  · intro k s
    rw [hsv, mapGet_filter (fun s => !isStale now lb.timeout s) k s lb.servers hndm,
      hfreshiff s]
  · intro k
    rw [hks]
    constructor
    · intro hk
      rcases List.mem_filter.mp hk with ⟨hk1, hk2⟩
      rw [decide_eq_true_eq] at hk2
      rcases Option.isSome_iff_exists.mp (hcov k hk1) with ⟨s, hs⟩
      refine ⟨s, hs, ?_⟩
      rw [← hfreshiff s]
      cases hb : isStale now lb.timeout s with
      | true =>
          exact absurd
            ((mem_staleMap now lb.timeout k lb.servers hndm halign).mpr ⟨s, hs, hb⟩) hk2
      | false => rfl
    · rintro ⟨s, hs, hle⟩
      apply List.mem_filter.mpr
      have hkk : k ∈ lb.serverKeys :=
        (registryInv_mem_iff lb ⟨hndk, hndm, hcov, hbk, halign⟩ k).mpr (by simp [hs])
      refine ⟨hkk, ?_⟩
      rw [decide_eq_true_eq]
      intro hmem
      rcases (mem_staleMap now lb.timeout k lb.servers hndm halign).mp hmem
        with ⟨s2, hs2, hstale⟩
      rw [hs] at hs2
      rw [← Option.some.inj hs2] at hstale
      rw [isStale, decide_eq_true_eq] at hstale
      exact absurd hstale (Nat.not_lt.mpr hle)
  · rw [hks]
    exact List.filter_sublist _
  · exact monitorSweep_conns now lb

/-- Witness for C5: sweeping `lbMix` at tick 12 (first entry 12 ticks
stale, second 2 ticks fresh). -/
theorem monitorSweep_spec_witness :
    (∀ k s, mapGet k (monitorSweep 12 lbMix).1.servers = some s ↔
        (mapGet k lbMix.servers = some s ∧ 12 - s.lastHeartbeat ≤ lbMix.timeout)) ∧
    (∀ k, k ∈ (monitorSweep 12 lbMix).1.serverKeys ↔
        (∃ s, mapGet k lbMix.servers = some s ∧ 12 - s.lastHeartbeat ≤ lbMix.timeout)) ∧
    (monitorSweep 12 lbMix).1.serverKeys.Sublist lbMix.serverKeys ∧
    (monitorSweep 12 lbMix).2 =
      (lbMix.servers.filter (fun q => isStale 12 lbMix.timeout q.2)).map
        (fun q => q.2.heartBeatConn) :=
  monitorSweep_spec lbMix 12 ⟨by decide, by decide, by decide, by decide, by decide⟩

/-- C4: over a stable registry holding `N` backends (only `getServer` runs
between the calls, so nothing is upserted or evicted), the `N` consecutive
selections are exactly the rotation-order key sequence rotated to the
cursor's effective start position, each mapped through the registry — so
each registered backend is returned exactly once, following insertion
order cyclically; and the selection after those `N` repeats the first
selection of the sequence. -/
theorem getServer_cycle (lb : LoadBalancer)
    (hne : lb.serverKeys ≠ [])
    (hnd : lb.serverKeys.Nodup)
    (halign : ∀ p ∈ lb.servers, p.2.heartbeatAddress = p.1)
    (hcov : ∀ k ∈ lb.serverKeys, (mapGet k lb.servers).isSome) :
    (getServerN lb.serverKeys.length lb).1 =
      (lb.serverKeys.rotate
        (if lb.serverKeys.length ≤ lb.roundRobinIndex then 0 else lb.roundRobinIndex)).map
        (fun k => mapGet k lb.servers) ∧
    (∀ k ∈ lb.serverKeys,
      (getServerN lb.serverKeys.length lb).1.countP
        (fun r => decide (r = mapGet k lb.servers)) = 1) ∧
    (getServerN (lb.serverKeys.length + 1) lb).1.getLast? =
      (getServerN lb.serverKeys.length lb).1.head? := by
  obtain ⟨servers, keys, c, t⟩ := lb
  dsimp only at hne hnd halign hcov ⊢
  have hlen : keys.length ≠ 0 := fun he => hne (List.length_eq_zero.mp he)
  have hpos : 0 < keys.length := Nat.pos_of_ne_zero hlen
  have hstart : (if keys.length ≤ c then 0 else c) < keys.length := by
    rcases Nat.lt_or_ge c keys.length with h | h
    · rw [if_neg (Nat.not_le.mpr h)]; exact h
    · rw [if_pos h]; exact hpos
  have htraceN := getServerN_trace_any servers keys t hne keys.length c
  have htraceN1 := getServerN_trace_any servers keys t hne (keys.length + 1) c
  have ha : (getServerN keys.length ⟨servers, keys, c, t⟩).1 =
      (keys.rotate (if keys.length ≤ c then 0 else c)).map (fun k => mapGet k servers) := by
    rw [htraceN]
    apply List.ext_getElem
    · simp
    · intro i h1 h2
      rw [List.getElem_map, List.getElem_range, List.getElem_map, List.getElem_rotate]
      have hidlt : ((if keys.length ≤ c then 0 else c) + i) % keys.length < keys.length :=
        Nat.mod_lt _ hpos
      rw [List.getD_eq_getElem _ _ hidlt]
      congr 2
      rw [Nat.add_comm]
  have hperm : List.Perm
      ((keys.rotate (if keys.length ≤ c then 0 else c)).map (fun k => mapGet k servers))
      (keys.map (fun k => mapGet k servers)) :=
    (List.rotate_perm keys _).map _
  have hinj : ∀ x ∈ keys, ∀ y ∈ keys,
      (fun k => mapGet k servers) x = (fun k => mapGet k servers) y → x = y := by
    intro x hx y hy he
    dsimp only at he
    rcases Option.isSome_iff_exists.mp (hcov x hx) with ⟨sx, hsx⟩
    rcases Option.isSome_iff_exists.mp (hcov y hy) with ⟨sy, hsy⟩
    rw [hsx, hsy] at he
    have h1 : sx.heartbeatAddress = x := halign (x, sx) (mapGet_mem _ _ _ hsx)
    have h2 : sy.heartbeatAddress = y := halign (y, sy) (mapGet_mem _ _ _ hsy)
    rw [← h1, ← h2, Option.some.inj he]
  have hnd2 : (keys.map (fun k => mapGet k servers)).Nodup := hnd.map_on hinj
  refine ⟨ha, ?_, ?_⟩
  · intro k hk
    rw [ha]
    refine Eq.trans (hperm.countP_eq (fun r => decide (r = mapGet k servers))) ?_
    exact countP_eq_one_of_nodup _ _ hnd2 (List.mem_map_of_mem _ hk)
  · rw [htraceN1, htraceN]
    rw [show keys.length + 1 = Nat.succ keys.length from rfl, List.range_succ,
      List.map_append, List.map_cons, List.map_nil, List.getLast?_concat]
    have hixN : ((if keys.length ≤ c then 0 else c) + keys.length) % keys.length =
        ((if keys.length ≤ c then 0 else c) + 0) % keys.length := by
      rw [Nat.add_mod_right, Nat.add_zero]
    rw [hixN]
    obtain ⟨m, hm⟩ := Nat.exists_eq_succ_of_ne_zero hlen
    rw [hm, List.range_succ_eq_map, List.map_cons, List.head?_cons]

/-- Witness for C4: the reachable two-backend registry `lbB` with the
cursor at 1 (mid-cycle). -/
theorem getServer_cycle_witness :
    (getServerN lbB.serverKeys.length lbB).1 =
      (lbB.serverKeys.rotate
        (if lbB.serverKeys.length ≤ lbB.roundRobinIndex then 0
         else lbB.roundRobinIndex)).map (fun k => mapGet k lbB.servers) ∧
    (∀ k ∈ lbB.serverKeys,
      (getServerN lbB.serverKeys.length lbB).1.countP
        (fun r => decide (r = mapGet k lbB.servers)) = 1) ∧
    (getServerN (lbB.serverKeys.length + 1) lbB).1.getLast? =
      (getServerN lbB.serverKeys.length lbB).1.head? :=
  getServer_cycle lbB (by decide) (by decide) (by decide) (by decide)

end RpcLB
